import Mathlib

/-!
Verification of the provenance-resolution pipeline (`python.py`).

The program is shallowly embedded over `List Char` strings:
  * `readBuildlist` embeds `read_buildlist` (Manifest Reader),
  * `findRecipes` embeds `find_recipes` (Recipe Locator),
  * `extractSrcInfo` embeds `extract_src_info` (Declaration Extractor),
  * `cloneAndDescribe` embeds `clone_and_describe_repo` (Provenance
    Resolver), with the three external git invocations abstracted by an
    oracle recording each invocation's outcome,
  * `driverLoop` embeds the per-package loop of `main` (Pipeline Driver).

Python regular-expression searches are embedded per pattern: each of the
fixed patterns of the source becomes a dedicated matcher reproducing
`re.search` semantics (leftmost start position, greedy quantifiers with
backtracking) for that pattern.
-/

set_option maxRecDepth 10000

/-- Shorthand: the character list of a string literal. -/
def lit (s : String) : List Char := s.data

/-- The ASCII whitespace set of Python's `str.strip` and of the regex
class written as a backslash-s (space, tab, newline, carriage return,
form feed, vertical tab). -/
def pySpace (c : Char) : Bool :=
  c = ' ' || c = '\t' || c = '\n' || c = '\r' || c = '\x0c' || c = '\x0b'

/-- Python `str.strip()`: drop leading and trailing whitespace. -/
def pyStrip (s : List Char) : List Char :=
  ((s.dropWhile pySpace).reverse.dropWhile pySpace).reverse

/-- Worker for the startswith test, recursing on the needle (taken
first, so that the recursion reduces whenever the needle is concrete). -/
def swAux : List Char → List Char → Bool
  | [], _ => true
  | _ :: _, [] => false
  | b :: p, a :: s => a = b && swAux p s

/-- `startsWith hay needle` is Python `hay.startswith(needle)`. -/
def startsWith (hay needle : List Char) : Bool := swAux needle hay

/-- `endsWith hay needle` is Python `hay.endswith(needle)`. -/
def endsWith (hay needle : List Char) : Bool :=
  startsWith hay.reverse needle.reverse

/-- `containsSub hay needle` is Python's substring test `needle in hay`. -/
def containsSub : List Char → List Char → Bool
  | hay, needle =>
    startsWith hay needle ||
      match hay with
      | [] => false
      | _ :: t => containsSub t needle

/-- Consume the literal `needle` from the front of `hay`, if present. -/
def dropLit : List Char → List Char → Option (List Char)
  | [], s => some s
  | _ :: _, [] => none
  | a :: t, b :: s => if b = a then dropLit t s else none

/-- Replace the first occurrence of character `c` by `d`
(Python `s.replace(c, d, 1)` for one-character arguments). -/
def replaceFirstChar (c d : Char) : List Char → List Char
  | [] => []
  | a :: t => if a = c then d :: t else a :: replaceFirstChar c d t

/-- The suffix of `hay` beginning at the first occurrence of `needle`
(Python `hay[hay.find(needle):]` when the needle occurs; whole string
otherwise, which the call sites below never rely on). -/
def dropToFirst (needle : List Char) : List Char → List Char
  | [] => []
  | a :: t => if startsWith (a :: t) needle then a :: t else dropToFirst needle t

/-- Python file-object line iteration: the lines of `c` without their
trailing newline characters.  A final newline does not create an extra
empty line, and an empty file has no lines. -/
def fileLines (c : List Char) : List (List Char) :=
  match (List.splitOn '\n' c).reverse with
  | [] => []
  | last :: rest => if last.isEmpty then rest.reverse else (last :: rest).reverse

/-- One line of `read_buildlist`, as a pure classifier: a stripped line
starting with the machine-scoped marker and splitting into exactly three
colon-delimited fields yields one (machine, package) entry. -/
def lineEntry (raw : List Char) : Option (List Char × List Char) :=
  let l := pyStrip raw
  if startsWith l (lit "mc:") then
    match List.splitOn ':' l with
    | [_, machine, pkg] => some (machine, pkg)
    | _ => none
  else none

/-- Whether `read_buildlist` logs one malformed-line warning for this raw
line: exactly the lines whose stripped form does not start with the
marker (the `else` of the source is attached to the `startswith` test). -/
def lineWarn (raw : List Char) : Bool :=
  !(startsWith (pyStrip raw) (lit "mc:"))

/-- Accumulated output of the Manifest Reader: ordered entries, ordered
package names (duplicates intact), and the number of warnings logged. -/
structure ManifestOut where
  entries : List (List Char × List Char)
  names : List (List Char)
  warnings : Nat
deriving Repr, DecidableEq

/-- One iteration of the `read_buildlist` loop (source lines 38-48):
strip the line; if it starts with the marker and splits into exactly
three fields, append one entry and one package name; if it starts with
the marker but has a different field count, do nothing; otherwise log
one warning. -/
def manifestStep (st : ManifestOut) (raw : List Char) : ManifestOut :=
  let line := pyStrip raw
  if startsWith line (lit "mc:") then
    match List.splitOn ':' line with
    | [_, machine, pkg] =>
        { st with entries := st.entries ++ [(machine, pkg)],
                  names := st.names ++ [pkg] }
    | _ => st
  else { st with warnings := st.warnings + 1 }

/-- Embedding of `read_buildlist` (source lines 34-50) over the file's
content. -/
def readBuildlist (content : List Char) : ManifestOut :=
  (fileLines content).foldl manifestStep ⟨[], [], 0⟩

/-- os.path.splitext restricted to a bare filename: the part before the
last dot, except that a name whose characters before that dot are all
dots is not split. -/
def splitextBase (fname : List Char) : List Char :=
  match fname.reverse.findIdx? (fun c => c = '.') with
  | none => fname
  | some k =>
    let i := fname.length - 1 - k
    if (fname.take i).any (fun c => !(c = '.')) then fname.take i else fname

/-- os.path.basename: the part of a path after its last slash. -/
def baseNameDir (p : List Char) : List Char :=
  match p.reverse.findIdx? (fun c => c = '/') with
  | none => p
  | some k => p.drop (p.length - k)

/-- os.path.join for the shapes used by the walk (root paths and bare
filenames). -/
def pathJoin (root f : List Char) : List Char :=
  if root.isEmpty then f
  else if root.getLast? = some '/' then root ++ f
  else root ++ [ '/' ] ++ f

/-- Lookup in an association list modelling a Python dict. -/
def lookupA (d : List (List Char × List Char)) (k : List Char) :
    Option (List Char) :=
  (d.find? (fun kv => kv.1 = k)).map Prod.snd

/-- Python `k in d` for the dict model. -/
def dictMem (d : List (List Char × List Char)) (k : List Char) : Bool :=
  (lookupA d k).isSome

/-- Python `d[k] = v` for the dict model: replace the value in place when
the key is present (keeping its position), append otherwise. -/
def dictSet (d : List (List Char × List Char)) (k v : List Char) :
    List (List Char × List Char) :=
  match d with
  | [] => [(k, v)]
  | x :: t => if x.1 = k then (k, v) :: t else x :: dictSet t k v

/-- State threaded through `find_recipes`: the found list, the
not-found list and the package-to-path dict. -/
structure LocState where
  found : List (List Char)
  notFound : List (List Char)
  paths : List (List Char × List Char)
deriving Repr, DecidableEq

/-- The common body of the three recording sites of `find_recipes`
(source lines 81-85, 96-100, 110-114): append to the found list, store
the path (overwriting any previous binding, as a dict assignment does),
and remove the first occurrence of the package from the not-found list
when present. -/
def recordPkg (s : LocState) (pkg path : List Char) : LocState :=
  { found := s.found ++ [pkg],
    paths := dictSet s.paths pkg path,
    notFound := if s.notFound.contains pkg then s.notFound.erase pkg
                else s.notFound }

/-- The fixed version-control suffix markers of `find_recipes`
(source line 66), tried in order with the first match stripped. -/
def vcsSuffixes : List (List Char) :=
  [ lit "_git", lit "_svn", lit "_hg", lit "-git", lit "-svn", lit "-hg" ]

/-- Suffix-stripping step of `find_recipes` (source lines 66-70). -/
def stripVcs (n : List Char) : List Char :=
  match vcsSuffixes.find? (fun s => endsWith n s) with
  | some s => n.take (n.length - s.length)
  | none => n

/-- Generic-filename resolution of `find_recipes` (source lines 72-77):
a candidate named `common` is renamed to the first package of the list
whose name is a substring of the containing directory path. -/
def commonResolve (names : List (List Char)) (root n : List Char) :
    List Char :=
  if n = lit "common" then
    match names.find? (fun p => containsSub root p) with
    | some p => p
    | none => n
  else n

/-- Exact-match recording site of `find_recipes` (source lines 80-85):
when the resolved candidate name is one of the package names, record it
unconditionally (a repeated match overwrites the stored path). -/
def exactStage (names : List (List Char)) (rn path : List Char)
    (s : LocState) : LocState :=
  if names.contains rn then recordPkg s rn path else s

/-- Separator-match recording site of `find_recipes` (source lines
89-101): the first not-yet-resolved package that the stripped or
original candidate name extends with a dash or underscore separator. -/
def prefixStage (names : List (List Char)) (rn orig path : List Char)
    (s : LocState) : LocState :=
  match names.find? (fun pkg =>
      !(dictMem s.paths pkg) &&
      (startsWith rn (pkg ++ [ '-' ]) || startsWith rn (pkg ++ [ '_' ]) ||
       startsWith orig (pkg ++ [ '-' ]) || startsWith orig (pkg ++ [ '_' ]))) with
  | some pkg => recordPkg s pkg path
  | none => s

/-- Directory-match recording site of `find_recipes` (source lines
105-115): the first not-yet-resolved package that starts with the
containing directory's basename (of length over three) and appears as a
substring of the candidate name or raw filename. -/
def dirStage (names : List (List Char)) (orig fname dirname path : List Char)
    (s : LocState) : LocState :=
  match names.find? (fun pkg =>
      !(dictMem s.paths pkg) && decide (3 < dirname.length) &&
      startsWith pkg dirname &&
      (containsSub orig pkg || containsSub fname pkg)) with
  | some pkg => recordPkg s pkg path
  | none => s

/-- Processing of one visited file inside the walk of `find_recipes`
(source lines 58-115): extension filter, suffix stripping, generic
resolution, then the exact-match, separator-match and directory-match
recording sites in source order. -/
def processFile (names : List (List Char)) (root fname : List Char)
    (s : LocState) : LocState :=
  if endsWith fname (lit ".bb") || endsWith fname (lit ".inc") then
    let orig := splitextBase fname
    let rn := commonResolve names root (stripVcs orig)
    let path := pathJoin root fname
    dirStage names orig fname (baseNameDir root) path
      (prefixStage names rn orig path (exactStage names rn path s))
  else s

/-- One directory of the walk: process its files in listing order. -/
def walkStep (names : List (List Char)) (s : LocState)
    (rf : List Char × List (List Char)) : LocState :=
  rf.2.foldl (fun s' f => processFile names rf.1 f s') s

/-- The walk from an arbitrary intermediate state. -/
def foldWalk (names : List (List Char))
    (walk : List (List Char × List (List Char))) (s : LocState) : LocState :=
  walk.foldl (walkStep names) s

/-- Embedding of `find_recipes` (source lines 52-117).  The directory
walk is abstracted as the visitation-ordered list of (root, filenames)
pairs that `os.walk` yields. -/
def findRecipes (names : List (List Char))
    (walk : List (List Char × List (List Char))) : LocState :=
  foldWalk names walk ⟨[], names, []⟩

/-- The double-quote character. -/
def dquote : Char := Char.ofNat 34

/-- The single-quote character. -/
def squote : Char := Char.ofNat 39

/-- Character class of the regex fragment excluding double quotes and
whitespace (the first class of the permissive github and any-dot-git
fallback patterns). -/
def isCls1 (c : Char) : Bool := !(c = dquote) && !(pySpace c)

/-- Character class additionally excluding semicolons (the second class
of the permissive github fallback pattern). -/
def isCls2 (c : Char) : Bool := isCls1 c && !(c = ';')

/-- Lowercase hexadecimal digits, the class `[a-f0-9]` of the bare-hex
revision pattern. -/
def isHexL (c : Char) : Bool :=
  (decide ('a' ≤ c) && decide (c ≤ 'f')) ||
  (decide ('0' ≤ c) && decide (c ≤ '9'))

/-- `re.search` driver: try the per-position matcher at every suffix of
the subject, leftmost first, as Python's scanning loop does. -/
def reSearch (tryAt : List Char → Option (List Char)) :
    List Char → Option (List Char)
  | [] => tryAt []
  | c :: t =>
    match tryAt (c :: t) with
    | some r => some r
    | none => reSearch tryAt t

/-- Matcher for the patterns of the form literal-then-run, such as the
transport patterns whose capture is a nonempty greedy run of characters
other than a semicolon directly after the literal. -/
def tryLitRun (l : List Char) (s : List Char) : Option (List Char) :=
  match dropLit l s with
  | none => none
  | some s1 =>
    let run := s1.takeWhile (fun c => !(c = ';'))
    if run.isEmpty then none else some run

/-- Matcher for the https pattern whose capture is a nonempty greedy run
of non-semicolon characters followed by a dot-git literal: greediness
with backtracking selects the rightmost dot-git occurrence reachable
within the run. -/
def tryHttpsDotGit (s : List Char) : Option (List Char) :=
  match dropLit (lit "https://") s with
  | none => none
  | some s1 =>
    let m := (s1.takeWhile (fun c => !(c = ';'))).length
    match (List.range (m + 1)).reverse.find? (fun i =>
        Nat.ble 1 i && startsWith (s1.drop i) (lit ".git")) with
    | some i => some (s1.take i)
    | none => none

/-- Matcher for the quoted-github pattern: a double quote, a run free of
double quotes containing the github host, and a closing double quote;
the capture is the whole run between the quotes. -/
def tryQuotedGithub (s : List Char) : Option (List Char) :=
  match s with
  | [] => none
  | c :: rest =>
    if c = dquote then
      let run := rest.takeWhile (fun x => !(x = dquote))
      if containsSub run (lit "github.com") &&
          Nat.blt run.length rest.length then some run else none
    else none

/-- Matcher for the permissive github fallback pattern: a nonempty run of
quote-free non-whitespace characters, the github host literal, then a
nonempty greedy run further excluding semicolons; backtracking selects
the rightmost viable host occurrence. -/
def tryFlexGithub (s : List Char) : Option (List Char) :=
  let m := (s.takeWhile isCls1).length
  match (List.range (m + 1)).reverse.find? (fun i =>
      Nat.ble 1 i && startsWith (s.drop i) (lit "github.com") &&
      !((s.drop (i + 10)).takeWhile isCls2).isEmpty) with
  | some i => some (s.take (i + 10) ++ (s.drop (i + 10)).takeWhile isCls2)
  | none => none

/-- Matcher for the any-dot-git fallback pattern: a nonempty run of
quote-free non-whitespace characters followed by a dot-git literal,
which the capture includes; backtracking selects the rightmost viable
dot-git occurrence. -/
def tryAnyDotGit (s : List Char) : Option (List Char) :=
  let m := (s.takeWhile isCls1).length
  match (List.range (m + 1)).reverse.find? (fun i =>
      Nat.ble 1 i && startsWith (s.drop i) (lit ".git")) with
  | some i => some (s.take (i + 4))
  | none => none

/-- Matcher for a key, optional spaces, an equals sign, optional spaces,
then a value quoted by `q`: the capture is the nonempty run up to the
next closing quote. -/
def tryKeyQuoted (key : List Char) (q : Char) (s : List Char) :
    Option (List Char) :=
  match dropLit key s with
  | none => none
  | some s1 =>
    match s1.dropWhile pySpace with
    | '=' :: s3 =>
      match s3.dropWhile pySpace with
      | c :: s5 =>
        if c = q then
          let cap := s5.takeWhile (fun x => !(x = q))
          if cap.isEmpty then none
          else if cap.length = s5.length then none
          else some cap
        else none
      | [] => none
    | _ => none

/-- Matcher for a key, an equals sign and a bare hexadecimal token of at
least six lowercase hex digits. -/
def tryKeyHex (key : List Char) (s : List Char) : Option (List Char) :=
  match dropLit key s with
  | none => none
  | some s1 =>
    match s1.dropWhile pySpace with
    | '=' :: s3 =>
      let run := (s3.dropWhile pySpace).takeWhile isHexL
      if Nat.ble 6 run.length then some run else none
    | _ => none

/-- Matcher for a key, an equals sign and a bare token of non-whitespace
non-semicolon characters. -/
def tryKeyBare (key : List Char) (s : List Char) : Option (List Char) :=
  match dropLit key s with
  | none => none
  | some s1 =>
    match s1.dropWhile pySpace with
    | '=' :: s3 =>
      let run := (s3.dropWhile pySpace).takeWhile
        (fun c => !(pySpace c) && !(c = ';'))
      if run.isEmpty then none else some run
    | _ => none

/-- The ordered chain of URL patterns of `extract_src_info`
(source lines 148-160), first successful search wins. -/
def uriSearch (line : List Char) : Option (List Char) :=
  (reSearch (tryLitRun (lit "gitsm://git@")) line) <|>
  (reSearch (tryLitRun (lit "gitsm://")) line) <|>
  (reSearch (tryLitRun (lit "https://git@")) line) <|>
  (reSearch tryHttpsDotGit line) <|>
  (reSearch (tryLitRun (lit "git://")) line) <|>
  (reSearch (tryLitRun (lit "https://")) line) <|>
  (reSearch (tryLitRun (lit "git@")) line) <|>
  (reSearch tryQuotedGithub line) <|>
  (reSearch tryFlexGithub line) <|>
  (reSearch tryAnyDotGit line)

/-- URI normalization of `extract_src_info` (source lines 168-181):
strip a trailing dot-git, then rewrite github-hosted candidates into a
git-at form along three branches. -/
def normUri (u0 : List Char) : List Char :=
  let u := if endsWith u0 (lit ".git") then u0.take (u0.length - 4) else u0
  if containsSub u (lit "github.com") then
    if startsWith u (lit "github.com/") then
      lit "git@" ++ replaceFirstChar '/' ':' u ++ lit ".git"
    else if containsSub u (lit "github.com/") then
      lit "git@" ++
        replaceFirstChar '/' ':' (dropToFirst (lit "github.com/") u) ++
        lit ".git"
    else lit "git@github.com:" ++ u ++ lit ".git"
  else u

/-- URI extraction for one logical line: the first matching pattern's
capture, normalized. -/
def uriExtract (line : List Char) : Option (List Char) :=
  (uriSearch line).map normUri

/-- Revision extraction for one logical line: double-quoted,
single-quoted, bare-hex, then bare-token patterns
(source lines 193-198), first successful search wins. -/
def revExtract (line : List Char) : Option (List Char) :=
  (reSearch (tryKeyQuoted (lit "SRCREV") dquote) line) <|>
  (reSearch (tryKeyQuoted (lit "SRCREV") squote) line) <|>
  (reSearch (tryKeyHex (lit "SRCREV")) line) <|>
  (reSearch (tryKeyBare (lit "SRCREV")) line)

/-- Branch extraction for one logical line: double-quoted,
single-quoted, then bare-token patterns (source lines 207-211). -/
def branchExtract (line : List Char) : Option (List Char) :=
  (reSearch (tryKeyQuoted (lit "SRCBRANCH") dquote) line) <|>
  (reSearch (tryKeyQuoted (lit "SRCBRANCH") squote) line) <|>
  (reSearch (tryKeyBare (lit "SRCBRANCH")) line)

/-- Fueled worker for line-continuation collapsing; the fuel only bounds
the recursion depth (structural recursion keeps the definition reducible
in the kernel) and is always sufficient at the call site below, since
dropping a whitespace run never lengthens the remainder. -/
def collapseContFuel : Nat → List Char → List Char
  | 0, l => l
  | _, [] => []
  | n + 1, a :: rest =>
    if a = '\\' then
      let w := rest.takeWhile pySpace
      if w.contains '\n' then
        ' ' :: collapseContFuel n (rest.dropWhile pySpace)
      else a :: collapseContFuel n rest
    else a :: collapseContFuel n rest

/-- Line-continuation collapsing (source line 134): a backslash followed
by a whitespace run containing a newline collapses, together with the
whole run, to a single space, scanning left to right over
non-overlapping matches as `re.sub` does. -/
def collapseCont (l : List Char) : List Char :=
  collapseContFuel l.length l

/-- The Declarations triple of one package. -/
structure Decls where
  uri : Option (List Char)
  rev : Option (List Char)
  branch : Option (List Char)
deriving Repr, DecidableEq

/-- One logical line of the same-file pass of `extract_src_info`
(source lines 139-217): strip, then dispatch on the URI, revision and
branch markers with the source's if/elif structure.  A successful match
assigns the field unconditionally, overwriting any earlier value. -/
def procLine (d : Decls) (raw : List Char) : Decls :=
  let line := pyStrip raw
  if containsSub line (lit "SRC_URI") &&
      (containsSub line (lit "git") || containsSub line (lit "github")) then
    match uriExtract line with
    | some u => { d with uri := some u }
    | none => d
  else if containsSub line (lit "SRCREV") then
    match revExtract line with
    | some r => { d with rev := some r }
    | none => d
  else if containsSub line (lit "SRCBRANCH") then
    match branchExtract line with
    | some b => { d with branch := some b }
    | none => d
  else d

/-- Same-file extraction pass of `extract_src_info`: collapse line
continuations, split on newlines, and fold the per-line dispatch. -/
def sameFilePass (content : List Char) : Decls :=
  (List.splitOn '\n' (collapseCont content)).foldl procLine ⟨none, none, none⟩

/-- Python truthiness of an optional string. -/
def truthy : Option (List Char) → Bool
  | none => false
  | some s => !s.isEmpty

/-- One line of the revision/branch fallback passes (source lines
258-287 and 312-339): two independently guarded extractions that never
overwrite an already-resolved field. -/
def rbLineGuarded (st : Option (List Char) × Option (List Char))
    (raw : List Char) : Option (List Char) × Option (List Char) :=
  let line := pyStrip raw
  let st1 :=
    if st.1.isNone && containsSub line (lit "SRCREV") then
      match revExtract line with
      | some r => (some r, st.2)
      | none => st
    else st
  if st1.2.isNone && containsSub line (lit "SRCBRANCH") then
    match branchExtract line with
    | some b => (st1.1, some b)
    | none => st1
  else st1

/-- Line loop of the sibling-file pass, which breaks as soon as both
fields are truthy (source lines 289-290). -/
def rbLinesBreak (st : Option (List Char) × Option (List Char)) :
    List (List Char) → Option (List Char) × Option (List Char)
  | [] => st
  | l :: ls =>
    let st' := rbLineGuarded st l
    if truthy st'.1 && truthy st'.2 then st' else rbLinesBreak st' ls

/-- Revision/branch extraction over one sibling file's content. -/
def rbPassSibling (content : List Char)
    (st : Option (List Char) × Option (List Char)) :
    Option (List Char) × Option (List Char) :=
  rbLinesBreak st (List.splitOn '\n' (collapseCont content))

/-- Revision/branch extraction over one file of the exhaustive fallback,
whose line loop has no early break (the guards make extra lines
harmless). -/
def rbPassExhaustive (content : List Char)
    (st : Option (List Char) × Option (List Char)) :
    Option (List Char) × Option (List Char) :=
  (List.splitOn '\n' (collapseCont content)).foldl rbLineGuarded st

/-- A file of the recipe's directory: its bare name and its content. -/
structure FSFile where
  name : List Char
  content : List Char
deriving Repr, DecidableEq

/-- Existence-plus-read of a file by name in the directory model. -/
def lookupFile (dir : List FSFile) (n : List Char) : Option (List Char) :=
  (dir.find? (fun f => f.name = n)).map FSFile.content

/-- Base name of the recipe file (source lines 228-233): the filename
with a dot-inc or dot-bb extension stripped. -/
def baseNameOf (fn : List Char) : List Char :=
  if endsWith fn (lit ".inc") then fn.take (fn.length - 4)
  else if endsWith fn (lit ".bb") then fn.take (fn.length - 3)
  else fn

/-- The fixed candidate sibling filenames of the cross-file fallback
(source lines 238-245), in order. -/
def siblingPatterns (base mt : List Char) : List (List Char) :=
  [ base ++ [ '_' ] ++ mt ++ lit ".bb",
    base ++ [ '-' ] ++ mt ++ lit ".bb",
    base ++ [ '.' ] ++ mt ++ lit ".bb",
    lit "common_" ++ mt ++ lit ".inc",
    lit "common_" ++ mt ++ lit ".bb",
    base ++ [ '_' ] ++ mt ++ lit ".inc" ]

/-- Sibling-file loop of the cross-file fallback (source lines 247-295):
for each candidate name that exists, run the guarded extraction and stop
once both fields are truthy. -/
def siblingLoop (dir : List FSFile) :
    List (List Char) → Option (List Char) × Option (List Char) →
    Option (List Char) × Option (List Char)
  | [], st => st
  | p :: ps, st =>
    match lookupFile dir p with
    | none => siblingLoop dir ps st
    | some c =>
      let st' := rbPassSibling c st
      if truthy st'.1 && truthy st'.2 then st' else siblingLoop dir ps st'

/-- Exhaustive directory fallback (source lines 297-344): every listed
file whose name ends in dot-bb and starts with the base name is
processed, stopping after a file once both fields are truthy. -/
def exhaustiveLoop (base : List Char) :
    List FSFile → Option (List Char) × Option (List Char) →
    Option (List Char) × Option (List Char)
  | [], st => st
  | f :: fs, st =>
    if endsWith f.name (lit ".bb") && startsWith f.name base then
      let st' := rbPassExhaustive f.content st
      if truthy st'.1 && truthy st'.2 then st' else exhaustiveLoop base fs st'
    else exhaustiveLoop base fs st

/-- Embedding of `extract_src_info` (source lines 119-347): the
same-file pass, then, when the version qualifier is truthy and revision
or branch is unresolved, the sibling-file fallback followed, when still
incomplete, by the exhaustive directory fallback.  The recipe's
directory is abstracted as its listing in `os.listdir` order. -/
def extractSrcInfo (recipeFilename content : List Char) (dir : List FSFile)
    (machineType : Option (List Char)) : Decls :=
  let d := sameFilePass content
  match machineType with
  | none => d
  | some mt =>
    if mt.isEmpty then d
    else if d.rev.isNone || d.branch.isNone then
      let base := baseNameOf recipeFilename
      let st1 := siblingLoop dir (siblingPatterns base mt) (d.rev, d.branch)
      let st2 :=
        if st1.1.isNone || st1.2.isNone then exhaustiveLoop base dir st1
        else st1
      { d with rev := st2.1, branch := st2.2 }
    else d

/-- Outcome of one external git invocation: a successful run with its
captured standard output, a run that exited nonzero (which, under
`check=True`, Python surfaces as `subprocess.CalledProcessError`), or
any other exception (for instance the `FileNotFoundError` that
`subprocess.run` raises when the git executable is missing), which the
`except subprocess.CalledProcessError` clause of the source does not
catch. -/
inductive GitOutcome where
  | success (out : List Char)
  | cpe
  | otherExc
deriving Repr, DecidableEq

/-- Oracle fixing the outcome of the three external git invocations of
one `clone_and_describe_repo` call, in execution order. -/
structure GitOracle where
  clone : GitOutcome
  checkout : GitOutcome
  describe : GitOutcome
deriving Repr, DecidableEq

/-- The deterministic fallback label of `clone_and_describe_repo`
(source line 391): a rev- marker followed by the first eight characters
of the revision, or the absent tag when the revision is falsy. -/
def revFallback (srcRev : List Char) : Option (List Char) :=
  if srcRev.isEmpty then none else some (lit "rev-" ++ srcRev.take 8)

/-- Embedding of `clone_and_describe_repo` (source lines 349-391).  An
`Except.error` value models an exception propagating out of the
function; `Except.ok` carries the returned optional tag. -/
def cloneAndDescribe (srcUri srcBranch srcRev : List Char)
    (g : GitOracle) : Except Unit (Option (List Char)) :=
  match g.clone with
  | .otherExc => .error ()
  | .cpe => .ok (revFallback srcRev)
  | .success _ =>
    match g.checkout with
    | .otherExc => .error ()
    | .cpe => .ok (revFallback srcRev)
    | .success _ =>
      match g.describe with
      | .otherExc => .error ()
      | .cpe => .ok (revFallback srcRev)
      | .success out => .ok (some (pyStrip out))

/-- Per-package input of the driver loop of `main`: the package, its
located recipe file (name and content), the recipe's directory listing,
the version qualifier derived from the manifest's group string, and the
oracle for the package's git invocations. -/
structure PkgWork where
  pkg : List Char
  recipeFilename : List Char
  content : List Char
  dir : List FSFile
  machineType : Option (List Char)
  oracle : GitOracle
deriving Repr, DecidableEq

/-- The per-package output record accumulated by `main`. -/
structure PkgRecord where
  uri : List Char
  rev : List Char
  branch : List Char
  tag : Option (List Char)
deriving Repr, DecidableEq

/-- Embedding of the per-package loop of `main` (source lines 416-459):
extract the declarations; when all three are truthy, resolve the tag and
append a record; otherwise skip the package as incomplete.  The loop
body is not wrapped in any exception handler, so an exception from the
resolution step propagates and ends the whole loop with no result
mapping. -/
def driverLoop : List PkgWork → List (List Char × PkgRecord) →
    Except Unit (List (List Char × PkgRecord))
  | [], acc => .ok acc
  | w :: ws, acc =>
    let d := extractSrcInfo w.recipeFilename w.content w.dir w.machineType
    match d.uri, d.rev, d.branch with
    | some u, some r, some b =>
      if u.isEmpty || r.isEmpty || b.isEmpty then driverLoop ws acc
      else
        match cloneAndDescribe u b r w.oracle with
        | .error e => .error e
        | .ok tag => driverLoop ws (acc ++ [(w.pkg, ⟨u, r, b, tag⟩)])
    | _, _, _ => driverLoop ws acc

/-- The pipeline run over the per-package work list, starting from the
empty result mapping. -/
def runPipeline (ws : List PkgWork) :
    Except Unit (List (List Char × PkgRecord)) :=
  driverLoop ws []

/-- A claim-C8 premise: the first failing git invocation, in execution
order, exits nonzero (clone fails; or clone succeeds and checkout fails;
or both succeed and describe fails). -/
def hitsCPE (g : GitOracle) : Prop :=
  g.clone = .cpe ∨
  (∃ o, g.clone = .success o ∧ g.checkout = .cpe) ∨
  (∃ o o', g.clone = .success o ∧ g.checkout = .success o' ∧
    g.describe = .cpe)

theorem manifestStep_fold_char (init : ManifestOut) (ls : List (List Char)) :
    ls.foldl manifestStep init =
      ⟨init.entries ++ ls.filterMap lineEntry,
       init.names ++ (ls.filterMap lineEntry).map Prod.snd,
       init.warnings + (ls.filter lineWarn).length⟩ := by
  induction ls generalizing init with
  | nil => simp
  | cons l t ih =>
    simp only [List.foldl_cons, ih, List.filterMap_cons, List.filter_cons]
    unfold manifestStep lineEntry lineWarn
    by_cases h : startsWith (pyStrip l) (lit "mc:")
    · simp only [h, if_true, Bool.not_true]
      cases hs : List.splitOn ':' (pyStrip l) with
      | nil => simp
      | cons a t' =>
        cases t' with
        | nil => simp
        | cons b t'' =>
          cases t'' with
          | nil => simp
          | cons c t''' =>
            cases t''' with
            | nil => simp
            | cons d t'''' => simp
    · simp only [h, if_false, Bool.not_false]
      simp [Nat.add_assoc, Nat.add_comm 1]

/-- Claim C9 (confirmed): the cross-file and exhaustive fallback steps of
`extract_src_info` never set or alter the URI field, for every recipe
file, directory listing and version qualifier: the returned URI is
exactly the one the same-file pass resolved, absent included. -/
theorem c9_uri_frame (fn c : List Char) (dir : List FSFile)
    (mt : Option (List Char)) :
    (extractSrcInfo fn c dir mt).uri = (sameFilePass c).uri := by
  unfold extractSrcInfo
  cases mt with
  | none => rfl
  | some m =>
    dsimp only
    split
    · rfl
    · split
      · rfl
      · rfl

/-- Claim C8 (confirmed): whenever the first failing of the clone,
checkout and describe invocations exits nonzero, `clone_and_describe_repo`
returns the deterministic fallback label rev- followed by the first
eight characters of the revision (not an absent tag, the revision being
nonempty); and when all three succeed it returns the stripped describe
output, which is non-absent. -/
theorem c8_tag_fallback (u b r : List Char) (g : GitOracle) (h : r ≠ []) :
    (hitsCPE g →
      cloneAndDescribe u b r g = .ok (some (lit "rev-" ++ r.take 8))) ∧
    (∀ o1 o2 o3, g.clone = .success o1 → g.checkout = .success o2 →
      g.describe = .success o3 →
      cloneAndDescribe u b r g = .ok (some (pyStrip o3))) := by
  have hf : revFallback r = some (lit "rev-" ++ r.take 8) := by
    unfold revFallback
    rw [if_neg]
    simp [List.isEmpty_iff, h]
  constructor
  · rintro (hc | ⟨o, hc, hk⟩ | ⟨o, o', hc, hk, hd⟩) <;>
      unfold cloneAndDescribe
    · rw [hc, hf]
    · rw [hc, hk, hf]
    · rw [hc, hk, hd, hf]
  · intro o1 o2 o3 h1 h2 h3
    unfold cloneAndDescribe
    rw [h1, h2, h3]

theorem c8_tag_fallback_witness :
    cloneAndDescribe (lit "git@github.com:acme/foo-pkg.git") (lit "main")
      (lit "abcdef1234567890") ⟨.cpe, .success [], .success []⟩ =
    .ok (some (lit "rev-abcdef12")) := by
  exact (c8_tag_fallback (lit "git@github.com:acme/foo-pkg.git")
    (lit "main") (lit "abcdef1234567890") ⟨.cpe, .success [], .success []⟩
    (by decide)).1 (Or.inl rfl)

/-- Claim C5, counterexample: on the manifest consisting of the single
line starting with the marker but splitting into only two colon-delimited
fields, the reader produces zero entries and zero warnings, not the one
malformed-line warning the claim requires. -/
theorem c5_counterexample :
    (readBuildlist (lit "mc:onlytwofields")).entries = [] ∧
    (readBuildlist (lit "mc:onlytwofields")).warnings = 0 ∧
    ¬ (readBuildlist (lit "mc:onlytwofields")).warnings = 1 := by
  refine ⟨rfl, rfl, by decide⟩

/-- Claim C5 (amended): for every manifest file, the reader emits, in
file order and with duplicates intact, exactly one entry per line whose
stripped form starts with the marker and splits into exactly three
colon-delimited fields; a line starting with the marker but with a
different field count is skipped silently with no warning; every line
not starting with the marker produces one malformed-line warning; and
the reader is a total function. -/
theorem c5_reader_characterization (content : List Char) :
    (readBuildlist content).entries = (fileLines content).filterMap lineEntry ∧
    (readBuildlist content).names =
      ((fileLines content).filterMap lineEntry).map Prod.snd ∧
    (readBuildlist content).warnings =
      ((fileLines content).filter lineWarn).length := by
  unfold readBuildlist
  rw [manifestStep_fold_char]
  simp

theorem lookupA_cons (x : List Char × List Char)
    (t : List (List Char × List Char)) (k : List Char) :
    lookupA (x :: t) k = if x.1 = k then some x.2 else lookupA t k := by
  unfold lookupA
  by_cases h : x.1 = k
  · rw [List.find?_cons_of_pos _ (by simpa using h), if_pos h]
    rfl
  · rw [List.find?_cons_of_neg _ (by simpa using h), if_neg h]

theorem lookupA_dictSet_self (d : List (List Char × List Char))
    (k v : List Char) : lookupA (dictSet d k v) k = some v := by
  induction d with
  | nil => simp [dictSet, lookupA_cons]
  | cons x t ih =>
    unfold dictSet
    by_cases h : x.1 = k
    · rw [if_pos h, lookupA_cons]
      simp
    · rw [if_neg h, lookupA_cons, if_neg h]
      exact ih

theorem lookupA_dictSet_ne (d : List (List Char × List Char))
    (k v k' : List Char) (h : k' ≠ k) :
    lookupA (dictSet d k v) k' = lookupA d k' := by
  induction d with
  | nil =>
    show lookupA [(k, v)] k' = lookupA [] k'
    rw [lookupA_cons, if_neg (fun he => h he.symm)]
  | cons x t ih =>
    unfold dictSet
    by_cases hx : x.1 = k
    · rw [if_pos hx, lookupA_cons, lookupA_cons,
        if_neg (fun he => h he.symm), if_neg (fun he => h (hx ▸ he).symm)]
    · rw [if_neg hx, lookupA_cons, lookupA_cons]
      by_cases hx' : x.1 = k'
      · rw [if_pos hx', if_pos hx']
      · rw [if_neg hx', if_neg hx']
        exact ih

theorem mem_dictSet (d : List (List Char × List Char)) (k v : List Char)
    (p : List Char × List Char) (h : p ∈ dictSet d k v) :
    p ∈ d ∨ p = (k, v) := by
  induction d with
  | nil =>
    right
    simpa [dictSet] using h
  | cons x t ih =>
    unfold dictSet at h
    by_cases hx : x.1 = k
    · rw [if_pos hx] at h
      rcases List.mem_cons.mp h with h | h
      · right; exact h
      · left; exact List.mem_cons_of_mem _ h
    · rw [if_neg hx] at h
      rcases List.mem_cons.mp h with h | h
      · left; exact h ▸ List.mem_cons_self _ _
      · rcases ih h with h' | h'
        · left; exact List.mem_cons_of_mem _ h'
        · right; exact h'

theorem keys_dictSet_sub (d : List (List Char × List Char))
    (k v y : List Char) (h : y ∈ (dictSet d k v).map Prod.fst) :
    y ∈ d.map Prod.fst ∨ y = k := by
  rcases List.mem_map.mp h with ⟨p, hp, he⟩
  rcases mem_dictSet d k v p hp with h' | h'
  · left; exact he ▸ List.mem_map_of_mem _ h'
  · right; rw [← he, h']

theorem nodup_keys_dictSet (d : List (List Char × List Char))
    (k v : List Char) (h : (d.map Prod.fst).Nodup) :
    ((dictSet d k v).map Prod.fst).Nodup := by
  induction d with
  | nil => simp [dictSet]
  | cons x t ih =>
    unfold dictSet
    by_cases hx : x.1 = k
    · rw [if_pos hx]
      simp only [List.map_cons, List.nodup_cons] at h ⊢
      rw [← hx]
      exact h
    · rw [if_neg hx]
      simp only [List.map_cons, List.nodup_cons] at h ⊢
      refine ⟨?_, ih h.2⟩
      intro hmem
      rcases keys_dictSet_sub t k v x.1 hmem with h' | h'
      · exact h.1 h'
      · exact hx h'

theorem lookupA_recordPkg_self (s : LocState) (pkg path : List Char) :
    lookupA (recordPkg s pkg path).paths pkg = some path :=
  lookupA_dictSet_self _ _ _

theorem lookupA_recordPkg_ne (s : LocState) (pkg path q : List Char)
    (h : q ≠ pkg) :
    lookupA (recordPkg s pkg path).paths q = lookupA s.paths q :=
  lookupA_dictSet_ne _ _ _ _ h

theorem exactStage_frame (names : List (List Char)) (rn path : List Char)
    (s : LocState) (pkg v : List Char)
    (hb : lookupA s.paths pkg = some v) (hne : rn ≠ pkg) :
    lookupA (exactStage names rn path s).paths pkg = some v := by
  unfold exactStage
  split
  · rw [lookupA_recordPkg_ne _ _ _ _ (fun he => hne he.symm)]
    exact hb
  · exact hb

theorem exactStage_hit (names : List (List Char)) (rn path : List Char)
    (s : LocState) (hc : names.contains rn = true) :
    lookupA (exactStage names rn path s).paths rn = some path := by
  unfold exactStage
  rw [if_pos hc]
  exact lookupA_recordPkg_self _ _ _

theorem prefixStage_frame (names : List (List Char))
    (rn orig path : List Char) (s : LocState) (pkg v : List Char)
    (hb : lookupA s.paths pkg = some v) :
    lookupA (prefixStage names rn orig path s).paths pkg = some v := by
  unfold prefixStage
  split
  · rename_i pkg' heq
    have hp := List.find?_some heq
    simp only [Bool.and_eq_true] at hp
    have hnm : dictMem s.paths pkg' = false := by
      simpa using hp.1
    have hne : pkg ≠ pkg' := by
      intro he
      subst he
      unfold dictMem at hnm
      rw [hb] at hnm
      simp at hnm
    rw [lookupA_recordPkg_ne _ _ _ _ hne]
    exact hb
  · exact hb

theorem dirStage_frame (names : List (List Char))
    (orig fname dirname path : List Char) (s : LocState) (pkg v : List Char)
    (hb : lookupA s.paths pkg = some v) :
    lookupA (dirStage names orig fname dirname path s).paths pkg = some v := by
  unfold dirStage
  split
  · rename_i pkg' heq
    have hp := List.find?_some heq
    simp only [Bool.and_eq_true] at hp
    have hnm : dictMem s.paths pkg' = false := by
      simpa using hp.1.1.1
    have hne : pkg ≠ pkg' := by
      intro he
      subst he
      unfold dictMem at hnm
      rw [hb] at hnm
      simp at hnm
    rw [lookupA_recordPkg_ne _ _ _ _ hne]
    exact hb
  · exact hb

theorem foldlPreserve {α β : Type} (f : β → α → β) (P : β → Prop)
    (h : ∀ b a, P b → P (f b a)) :
    ∀ (l : List α) (b : β), P b → P (l.foldl f b) := by
  intro l
  induction l with
  | nil => exact fun b hb => hb
  | cons a t ih =>
    intro b hb
    rw [List.foldl_cons]
    exact ih _ (h _ _ hb)

theorem keys_recordPkg_sub (s : LocState) (pkg path y : List Char)
    (h : y ∈ (recordPkg s pkg path).paths.map Prod.fst) :
    y ∈ s.paths.map Prod.fst ∨ y = pkg :=
  keys_dictSet_sub _ _ _ _ h

theorem keys_exactStage_sub (names : List (List Char)) (rn path : List Char)
    (s : LocState) (y : List Char)
    (h : y ∈ (exactStage names rn path s).paths.map Prod.fst) :
    y ∈ s.paths.map Prod.fst ∨ y ∈ names := by
  unfold exactStage at h
  by_cases hc : names.contains rn = true
  · rw [if_pos hc] at h
    rcases keys_recordPkg_sub _ _ _ _ h with h' | h'
    · left; exact h'
    · right
      subst h'
      simpa using hc
  · rw [if_neg hc] at h
    left; exact h

theorem keys_prefixStage_sub (names : List (List Char))
    (rn orig path : List Char) (s : LocState) (y : List Char)
    (h : y ∈ (prefixStage names rn orig path s).paths.map Prod.fst) :
    y ∈ s.paths.map Prod.fst ∨ y ∈ names := by
  unfold prefixStage at h
  split at h
  · rename_i pkg' heq
    rcases keys_recordPkg_sub _ _ _ _ h with h' | h'
    · left; exact h'
    · right; exact h' ▸ List.mem_of_find?_eq_some heq
  · left; exact h

theorem keys_dirStage_sub (names : List (List Char))
    (orig fname dirname path : List Char) (s : LocState) (y : List Char)
    (h : y ∈ (dirStage names orig fname dirname path s).paths.map Prod.fst) :
    y ∈ s.paths.map Prod.fst ∨ y ∈ names := by
  unfold dirStage at h
  split at h
  · rename_i pkg' heq
    rcases keys_recordPkg_sub _ _ _ _ h with h' | h'
    · left; exact h'
    · right; exact h' ▸ List.mem_of_find?_eq_some heq
  · left; exact h

theorem keys_processFile_sub (names : List (List Char))
    (root fname : List Char) (s : LocState) (y : List Char)
    (h : y ∈ (processFile names root fname s).paths.map Prod.fst) :
    y ∈ s.paths.map Prod.fst ∨ y ∈ names := by
  unfold processFile at h
  split at h
  · rcases keys_dirStage_sub _ _ _ _ _ _ _ h with h1 | h1
    · rcases keys_prefixStage_sub _ _ _ _ _ _ h1 with h2 | h2
      · exact keys_exactStage_sub _ _ _ _ _ h2
      · right; exact h2
    · right; exact h1
  · left; exact h

theorem nodup_keys_recordPkg (s : LocState) (pkg path : List Char)
    (h : (s.paths.map Prod.fst).Nodup) :
    ((recordPkg s pkg path).paths.map Prod.fst).Nodup :=
  nodup_keys_dictSet _ _ _ h

theorem nodup_keys_exactStage (names : List (List Char))
    (rn path : List Char) (s : LocState)
    (h : (s.paths.map Prod.fst).Nodup) :
    ((exactStage names rn path s).paths.map Prod.fst).Nodup := by
  unfold exactStage
  split
  · exact nodup_keys_recordPkg _ _ _ h
  · exact h

theorem nodup_keys_prefixStage (names : List (List Char))
    (rn orig path : List Char) (s : LocState)
    (h : (s.paths.map Prod.fst).Nodup) :
    ((prefixStage names rn orig path s).paths.map Prod.fst).Nodup := by
  unfold prefixStage
  split
  · exact nodup_keys_recordPkg _ _ _ h
  · exact h

theorem nodup_keys_dirStage (names : List (List Char))
    (orig fname dirname path : List Char) (s : LocState)
    (h : (s.paths.map Prod.fst).Nodup) :
    ((dirStage names orig fname dirname path s).paths.map Prod.fst).Nodup := by
  unfold dirStage
  split
  · exact nodup_keys_recordPkg _ _ _ h
  · exact h

theorem nodup_keys_processFile (names : List (List Char))
    (root fname : List Char) (s : LocState)
    (h : (s.paths.map Prod.fst).Nodup) :
    ((processFile names root fname s).paths.map Prod.fst).Nodup := by
  unfold processFile
  split
  · exact nodup_keys_dirStage _ _ _ _ _ _
      (nodup_keys_prefixStage _ _ _ _ _ (nodup_keys_exactStage _ _ _ _ h))
  · exact h

theorem processFile_frame (names : List (List Char)) (root fname : List Char)
    (s : LocState) (pkg v : List Char)
    (hb : lookupA s.paths pkg = some v)
    (hne : commonResolve names root (stripVcs (splitextBase fname)) ≠ pkg) :
    lookupA (processFile names root fname s).paths pkg = some v := by
  unfold processFile
  split
  · exact dirStage_frame _ _ _ _ _ _ _ _
      (prefixStage_frame _ _ _ _ _ _ _ (exactStage_frame _ _ _ _ _ _ hb hne))
  · exact hb

theorem processFile_hit (names : List (List Char)) (root fname : List Char)
    (s : LocState) (pkg : List Char)
    (hext : (endsWith fname (lit ".bb") || endsWith fname (lit ".inc")) = true)
    (hrn : commonResolve names root (stripVcs (splitextBase fname)) = pkg)
    (hc : names.contains pkg = true) :
    lookupA (processFile names root fname s).paths pkg =
      some (pathJoin root fname) := by
  unfold processFile
  rw [if_pos hext]
  apply dirStage_frame
  apply prefixStage_frame
  rw [hrn]
  exact exactStage_hit _ _ _ _ hc

theorem walkStep_frame (names : List (List Char)) (s : LocState)
    (rf : List Char × List (List Char)) (pkg v : List Char)
    (hb : lookupA s.paths pkg = some v)
    (h : ∀ f ∈ rf.2,
      commonResolve names rf.1 (stripVcs (splitextBase f)) ≠ pkg) :
    lookupA (walkStep names s rf).paths pkg = some v := by
  unfold walkStep
  rcases rf with ⟨root, files⟩
  induction files generalizing s with
  | nil => exact hb
  | cons f t ih =>
    rw [List.foldl_cons]
    exact ih _
      (processFile_frame _ _ _ _ _ _ hb (h f (List.mem_cons_self _ _)))
      (fun g hg => h g (List.mem_cons_of_mem _ hg))

theorem foldWalk_frame (names : List (List Char))
    (walk : List (List Char × List (List Char))) (s : LocState)
    (pkg v : List Char) (hb : lookupA s.paths pkg = some v)
    (h : ∀ rf ∈ walk, ∀ f ∈ rf.2,
      commonResolve names rf.1 (stripVcs (splitextBase f)) ≠ pkg) :
    lookupA (foldWalk names walk s).paths pkg = some v := by
  unfold foldWalk
  induction walk generalizing s with
  | nil => exact hb
  | cons rf t ih =>
    rw [List.foldl_cons]
    exact ih _
      (walkStep_frame _ _ _ _ _ hb (h rf (List.mem_cons_self _ _)))
      (fun rg hg => h rg (List.mem_cons_of_mem _ hg))

/-- Claim C10 (confirmed): for every root walk and package list, every
key of the recipe index returned by `find_recipes` is a member of the
input package list, under all matching rules. -/
theorem c10_keys_in_packageset (names : List (List Char))
    (walk : List (List Char × List (List Char))) (k : List Char)
    (h : k ∈ (findRecipes names walk).paths.map Prod.fst) : k ∈ names := by
  have step : ∀ (s : LocState) (rf : List Char × List (List Char)),
      (∀ y ∈ s.paths.map Prod.fst, y ∈ names) →
      (∀ y ∈ (walkStep names s rf).paths.map Prod.fst, y ∈ names) := by
    intro s rf hs
    unfold walkStep
    exact foldlPreserve _ (fun s' => ∀ y ∈ s'.paths.map Prod.fst, y ∈ names)
      (fun s' f hs' y hy => by
        rcases keys_processFile_sub names rf.1 f s' y hy with h1 | h1
        · exact hs' y h1
        · exact h1) rf.2 s hs
  have init : ∀ y ∈ (LocState.mk [] names []).paths.map Prod.fst,
      y ∈ names := by
    intro y hy
    simp at hy
  exact foldlPreserve (walkStep names) _ step walk _ init k h

theorem c10_keys_in_packageset_witness : lit "foo" ∈ [ lit "foo" ] :=
  c10_keys_in_packageset [ lit "foo" ] [(lit "a", [ lit "foo.bb" ])]
    (lit "foo") (by decide)

/-- Claim C2, counterexample: with package set foo and a walk visiting
a/foo.bb before b/foo.bb (both resolving foo under the exact-name rule),
the recorded path is the second file's: the first visited file does not
win and is replaced by a later file resolving the same package. -/
theorem c2_counterexample :
    lookupA (findRecipes [ lit "foo" ]
      [(lit "a", [ lit "foo.bb" ]), (lit "b", [ lit "foo.bb" ])]).paths
      (lit "foo") = some (lit "b/foo.bb") ∧
    ¬ (lit "b/foo.bb" = lit "a/foo.bb") :=
  ⟨rfl, by decide⟩

/-- Claim C2 (amended): the recipe index holds at most one path per
package (its keys are never duplicated); a file resolving a package only
through the separator or directory rules never replaces an existing
entry for that package, so the first such file wins; but a file whose
suffix-stripped, generic-resolved candidate name matches the package
verbatim records unconditionally, overwriting any earlier entry, so for
the exact-name rule the last visited file wins. -/
theorem c2_tiebreak_amended :
    (∀ (names : List (List Char)) (walk : List (List Char × List (List Char))),
      ((findRecipes names walk).paths.map Prod.fst).Nodup) ∧
    (∀ (names : List (List Char)) (walk : List (List Char × List (List Char)))
      (s : LocState) (pkg v : List Char),
      lookupA s.paths pkg = some v →
      (∀ rf ∈ walk, ∀ f ∈ rf.2,
        commonResolve names rf.1 (stripVcs (splitextBase f)) ≠ pkg) →
      lookupA (foldWalk names walk s).paths pkg = some v) ∧
    (∀ (names : List (List Char)) (root fname : List Char) (s : LocState)
      (pkg : List Char),
      (endsWith fname (lit ".bb") || endsWith fname (lit ".inc")) = true →
      commonResolve names root (stripVcs (splitextBase fname)) = pkg →
      names.contains pkg = true →
      lookupA (processFile names root fname s).paths pkg =
        some (pathJoin root fname)) := by
  refine ⟨?_, ?_, ?_⟩
  · intro names walk
    have step : ∀ (s : LocState) (rf : List Char × List (List Char)),
        (s.paths.map Prod.fst).Nodup →
        ((walkStep names s rf).paths.map Prod.fst).Nodup := by
      intro s rf hs
      unfold walkStep
      exact foldlPreserve _ (fun s' => (s'.paths.map Prod.fst).Nodup)
        (fun s' f hs' => nodup_keys_processFile names rf.1 f s' hs') rf.2 s hs
    exact foldlPreserve (walkStep names) _ step walk _ (by simp)
  · intro names walk s pkg v hb h
    exact foldWalk_frame names walk s pkg v hb h
  · intro names root fname s pkg h1 h2 h3
    exact processFile_hit names root fname s pkg h1 h2 h3

theorem c2_tiebreak_amended_witness :
    lookupA (foldWalk [ lit "foo" ] [(lit "x", [ lit "bar.bb" ])]
      ⟨[ lit "foo" ], [], [(lit "foo", lit "a/foo.bb")]⟩).paths (lit "foo") =
      some (lit "a/foo.bb") ∧
    lookupA (processFile [ lit "foo" ] (lit "a") (lit "foo.bb")
      ⟨[], [ lit "foo" ], []⟩).paths (lit "foo") =
      some (pathJoin (lit "a") (lit "foo.bb")) :=
  ⟨c2_tiebreak_amended.2.1 [ lit "foo" ] [(lit "x", [ lit "bar.bb" ])]
      ⟨[ lit "foo" ], [], [(lit "foo", lit "a/foo.bb")]⟩ (lit "foo")
      (lit "a/foo.bb") (by decide) (by decide),
   c2_tiebreak_amended.2.2 [ lit "foo" ] (lit "a") (lit "foo.bb")
      ⟨[], [ lit "foo" ], []⟩ (lit "foo") (by decide) (by decide) (by decide)⟩

/-- Claim C6, counterexample: with packages alpha and beta, both
appearing as substrings of the directory path of common.bb, the file is
still resolved by the generic-filename rule, to the first matching
package alpha, although the claim requires the rule to resolve nothing
when two or more package names appear in the path. -/
theorem c6_counterexample :
    containsSub (lit "x/alpha/beta") (lit "alpha") = true ∧
    containsSub (lit "x/alpha/beta") (lit "beta") = true ∧
    ¬ (lit "alpha" = lit "beta") ∧
    (findRecipes [ lit "alpha", lit "beta" ]
      [(lit "x/alpha/beta", [ lit "common.bb" ])]).paths =
      [(lit "alpha", lit "x/alpha/beta/common.bb")] :=
  ⟨rfl, rfl, by decide, rfl⟩

/-- Claim C6 (amended): a candidate file whose suffix-stripped name is
the reserved generic token is assigned to the first package of the
package list (in list order) whose name appears as a substring of the
containing directory path, whether or not other package names also
appear there; in particular common.bb inside layers/geodata with
geodata in the package set is assigned to geodata. -/
theorem c6_generic_first_match :
    (∀ (names : List (List Char)) (root fname : List Char) (s : LocState)
      (p : List Char),
      (endsWith fname (lit ".bb") || endsWith fname (lit ".inc")) = true →
      stripVcs (splitextBase fname) = lit "common" →
      names.find? (fun q => containsSub root q) = some p →
      lookupA (processFile names root fname s).paths p =
        some (pathJoin root fname)) ∧
    lookupA (findRecipes [ lit "geodata" ]
      [(lit "layers/geodata", [ lit "common.bb" ])]).paths (lit "geodata") =
      some (lit "layers/geodata/common.bb") := by
  constructor
  · intro names root fname s p hext hstrip hfind
    apply processFile_hit names root fname s p hext
    · rw [hstrip]
      unfold commonResolve
      rw [if_pos rfl, hfind]
    · have hm := List.mem_of_find?_eq_some hfind
      simpa using hm
  · rfl

theorem c6_generic_first_match_witness :
    lookupA (processFile [ lit "alpha", lit "beta" ] (lit "x/alpha/beta")
      (lit "common.bb") ⟨[], [ lit "alpha", lit "beta" ], []⟩).paths
      (lit "alpha") =
      some (pathJoin (lit "x/alpha/beta") (lit "common.bb")) :=
  c6_generic_first_match.1 [ lit "alpha", lit "beta" ] (lit "x/alpha/beta")
    (lit "common.bb") ⟨[], [ lit "alpha", lit "beta" ], []⟩ (lit "alpha")
    (by decide) (by decide) (by decide)

/-- Claim C1, counterexample: a recipe whose same-file pass sees two
matching revision lines ends with the second line's value: the field is
overwritten, not kept from the first successful match. -/
theorem c1_counterexample :
    (extractSrcInfo (lit "r.bb")
      (lit "SRCREV = \"aaaaaaaa\"\nSRCREV = \"bbbbbbbb\"") [] none).rev =
      some (lit "bbbbbbbb") ∧
    ¬ (lit "bbbbbbbb" = lit "aaaaaaaa") :=
  ⟨by decide, by decide⟩

/-- Claim C1 (amended): in the same-file pass each of the three fields is
set by every matching logical line in turn, so the value extracted from
the LAST matching line is kept and a later matching line overwrites an
already-resolved field: whatever the earlier lines and the prior state,
appending a line on which the corresponding extraction succeeds forces
the field to that line's value. -/
theorem c1_last_match_wins (d0 : Decls) (pre : List (List Char))
    (lu lr lb u r b : List Char)
    (hu1 : (containsSub (pyStrip lu) (lit "SRC_URI") &&
      (containsSub (pyStrip lu) (lit "git") ||
       containsSub (pyStrip lu) (lit "github"))) = true)
    (hu2 : uriExtract (pyStrip lu) = some u)
    (hr1 : (containsSub (pyStrip lr) (lit "SRC_URI") &&
      (containsSub (pyStrip lr) (lit "git") ||
       containsSub (pyStrip lr) (lit "github"))) = false)
    (hr2 : containsSub (pyStrip lr) (lit "SRCREV") = true)
    (hr3 : revExtract (pyStrip lr) = some r)
    (hb1 : (containsSub (pyStrip lb) (lit "SRC_URI") &&
      (containsSub (pyStrip lb) (lit "git") ||
       containsSub (pyStrip lb) (lit "github"))) = false)
    (hb2 : containsSub (pyStrip lb) (lit "SRCREV") = false)
    (hb3 : containsSub (pyStrip lb) (lit "SRCBRANCH") = true)
    (hb4 : branchExtract (pyStrip lb) = some b) :
    (List.foldl procLine d0 (pre ++ [ lu ])).uri = some u ∧
    (List.foldl procLine d0 (pre ++ [ lr ])).rev = some r ∧
    (List.foldl procLine d0 (pre ++ [ lb ])).branch = some b := by
  refine ⟨?_, ?_, ?_⟩ <;>
    rw [List.foldl_append] <;>
    simp only [List.foldl_cons, List.foldl_nil]
  · simp [procLine, hu1, hu2]
  · simp [procLine, hr1, hr2, hr3]
  · simp [procLine, hb1, hb2, hb3, hb4]

theorem c1_last_match_wins_witness :
    (List.foldl procLine ⟨some (lit "u0"), some (lit "r0"), some (lit "b0")⟩
      ([ lit "SRCREV = \"first\"" ] ++
        [ lit "SRC_URI = \"git://github.com/a/b.git;tag=x\"" ])).uri =
      some (lit "git@github.com:a/b.git") ∧
    (List.foldl procLine ⟨some (lit "u0"), some (lit "r0"), some (lit "b0")⟩
      ([ lit "SRCREV = \"first\"" ] ++ [ lit "SRCREV = \"second\"" ])).rev =
      some (lit "second") ∧
    (List.foldl procLine ⟨some (lit "u0"), some (lit "r0"), some (lit "b0")⟩
      ([ lit "SRCREV = \"first\"" ] ++ [ lit "SRCBRANCH = \"dev\"" ])).branch =
      some (lit "dev") :=
  c1_last_match_wins ⟨some (lit "u0"), some (lit "r0"), some (lit "b0")⟩
    [ lit "SRCREV = \"first\"" ]
    (lit "SRC_URI = \"git://github.com/a/b.git;tag=x\"")
    (lit "SRCREV = \"second\"") (lit "SRCBRANCH = \"dev\"")
    (lit "git@github.com:a/b.git") (lit "second") (lit "dev")
    (by decide) (by decide) (by decide) (by decide) (by decide)
    (by decide) (by decide) (by decide) (by decide)

theorem cloneAndDescribe_ok (u b r : List Char) (g : GitOracle)
    (h1 : g.clone ≠ .otherExc) (h2 : g.checkout ≠ .otherExc)
    (h3 : g.describe ≠ .otherExc) :
    ∃ t, cloneAndDescribe u b r g = .ok t := by
  unfold cloneAndDescribe
  cases hc : g.clone with
  | otherExc => exact absurd hc h1
  | cpe => exact ⟨_, rfl⟩
  | success o =>
    cases hk : g.checkout with
    | otherExc => exact absurd hk h2
    | cpe => exact ⟨_, rfl⟩
    | success o2 =>
      cases hd : g.describe with
      | otherExc => exact absurd hd h3
      | cpe => exact ⟨_, rfl⟩
      | success o3 => exact ⟨_, rfl⟩

/-- Claim C4, counterexample: a run whose first package has fully
resolved declarations but whose clone invocation raises an exception
other than a nonzero-exit error (the git executable being missing, for
instance) aborts the whole per-package loop: the second, healthy package
is never processed and no result mapping is emitted, although the same
second package alone yields a result.  The claim that no exception
propagates out of the loop is therefore false. -/
theorem c4_counterexample :
    runPipeline
      [ ⟨ lit "pkg1", lit "pkg1.bb",
          lit "SRC_URI = \"git://github.com/acme/foo.git;branch=main\"\nSRCREV = \"abcdef123456\"\nSRCBRANCH = \"main\"",
          [], none, ⟨.otherExc, .success [], .success []⟩ ⟩,
        ⟨ lit "pkg2", lit "pkg2.bb",
          lit "SRC_URI = \"git://github.com/acme/foo.git;branch=main\"\nSRCREV = \"abcdef123456\"\nSRCBRANCH = \"main\"",
          [], none, ⟨.success [], .success [], .success (lit "v1.0-3-gabcdef1")⟩ ⟩ ] =
      .error () ∧
    runPipeline
      [ ⟨ lit "pkg2", lit "pkg2.bb",
          lit "SRC_URI = \"git://github.com/acme/foo.git;branch=main\"\nSRCREV = \"abcdef123456\"\nSRCBRANCH = \"main\"",
          [], none, ⟨.success [], .success [], .success (lit "v1.0-3-gabcdef1")⟩ ⟩ ] =
      .ok [(lit "pkg2",
        ⟨ lit "git@github.com:acme/foo.git", lit "abcdef123456", lit "main",
          some (lit "v1.0-3-gabcdef1") ⟩)] :=
  ⟨rfl, rfl⟩

/-- Claim C4 (amended): per-package failures are isolated only for the
nonzero-exit errors of the external git invocations, which the except
clause of the resolution step converts into a fallback tag; under the
assumption that no git invocation raises any other kind of exception,
the driver loop runs to completion over every package and emits a
result mapping.  An exception of any other kind from the clone,
checkout or describe step propagates out of the unguarded loop body and
aborts processing of the remaining packages. -/
theorem c4_isolation_amended (ws : List PkgWork)
    (acc : List (List Char × PkgRecord))
    (h : ∀ w ∈ ws, w.oracle.clone ≠ .otherExc ∧
      w.oracle.checkout ≠ .otherExc ∧ w.oracle.describe ≠ .otherExc) :
    ∃ res, driverLoop ws acc = .ok res := by
  induction ws generalizing acc with
  | nil => exact ⟨acc, rfl⟩
  | cons w t ih =>
    have hw := h w (List.mem_cons_self _ _)
    have ht : ∀ x ∈ t, x.oracle.clone ≠ .otherExc ∧
        x.oracle.checkout ≠ .otherExc ∧ x.oracle.describe ≠ .otherExc :=
      fun x hx => h x (List.mem_cons_of_mem _ hx)
    unfold driverLoop
    dsimp only
    cases hu : (extractSrcInfo w.recipeFilename w.content w.dir
        w.machineType).uri with
    | none => exact ih acc ht
    | some u =>
      cases hr : (extractSrcInfo w.recipeFilename w.content w.dir
          w.machineType).rev with
      | none => exact ih acc ht
      | some r =>
        cases hb : (extractSrcInfo w.recipeFilename w.content w.dir
            w.machineType).branch with
        | none => exact ih acc ht
        | some b =>
          dsimp only
          by_cases hempty : (u.isEmpty || r.isEmpty || b.isEmpty) = true
          · rw [if_pos hempty]
            exact ih acc ht
          · rw [if_neg hempty]
            obtain ⟨tag, htag⟩ :=
              cloneAndDescribe_ok u b r w.oracle hw.1 hw.2.1 hw.2.2
            rw [htag]
            exact ih _ ht

theorem c4_isolation_amended_witness :
    ∃ res, driverLoop
      [ ⟨ lit "pkg2", lit "pkg2.bb",
          lit "SRC_URI = \"git://github.com/acme/foo.git;branch=main\"\nSRCREV = \"abcdef123456\"\nSRCBRANCH = \"main\"",
          [], none, ⟨.success [], .success [], .success (lit "v1.0-3-gabcdef1")⟩ ⟩ ]
      [] = .ok res :=
  c4_isolation_amended
    [ ⟨ lit "pkg2", lit "pkg2.bb",
        lit "SRC_URI = \"git://github.com/acme/foo.git;branch=main\"\nSRCREV = \"abcdef123456\"\nSRCBRANCH = \"main\"",
        [], none, ⟨.success [], .success [], .success (lit "v1.0-3-gabcdef1")⟩ ⟩ ]
    [] (by decide)

theorem truthy_isSome (x : Option (List Char)) (h : truthy x = true) :
    x.isSome = true := by
  cases x with
  | none => simp [truthy] at h
  | some s => rfl

theorem rbLineGuarded_frozen (st : Option (List Char) × Option (List Char))
    (l : List Char) (h1 : st.1.isSome = true) (h2 : st.2.isSome = true) :
    rbLineGuarded st l = st := by
  obtain ⟨x, hx⟩ := Option.isSome_iff_exists.mp h1
  obtain ⟨y, hy⟩ := Option.isSome_iff_exists.mp h2
  unfold rbLineGuarded
  simp [hx, hy]

theorem rbFold_frozen (ls : List (List Char))
    (st : Option (List Char) × Option (List Char))
    (h1 : st.1.isSome = true) (h2 : st.2.isSome = true) :
    ls.foldl rbLineGuarded st = st := by
  induction ls with
  | nil => rfl
  | cons l t ih =>
    rw [List.foldl_cons, rbLineGuarded_frozen st l h1 h2, ih]

theorem rbPassExhaustive_frozen (c : List Char)
    (st : Option (List Char) × Option (List Char))
    (h1 : st.1.isSome = true) (h2 : st.2.isSome = true) :
    rbPassExhaustive c st = st :=
  rbFold_frozen _ st h1 h2

theorem exhaustiveLoop_frozen (base : List Char) (dir : List FSFile)
    (st : Option (List Char) × Option (List Char))
    (h : (truthy st.1 && truthy st.2) = true) :
    exhaustiveLoop base dir st = st := by
  have h' := h
  rw [Bool.and_eq_true] at h'
  obtain ⟨ht1, ht2⟩ := h' 
  have h1 := truthy_isSome _ ht1
  have h2 := truthy_isSome _ ht2
  induction dir with
  | nil => rfl
  | cons f fs ih =>
    unfold exhaustiveLoop
    by_cases hc : (endsWith f.name (lit ".bb") && startsWith f.name base) = true
    · rw [if_pos hc]
      simp only [rbPassExhaustive_frozen f.content st h1 h2, h, if_true]
    · rw [if_neg hc]
      exact ih

theorem exhaustiveLoop_bb_only (base : List Char) (dir : List FSFile)
    (st : Option (List Char) × Option (List Char)) :
    exhaustiveLoop base (dir.filter (fun f => endsWith f.name (lit ".bb"))) st =
      exhaustiveLoop base dir st := by
  induction dir generalizing st with
  | nil => rfl
  | cons f fs ih =>
    rw [List.filter_cons]
    by_cases hf : endsWith f.name (lit ".bb") = true
    · rw [if_pos hf]
      show exhaustiveLoop base (f :: fs.filter _) st = exhaustiveLoop base (f :: fs) st
      unfold exhaustiveLoop
      by_cases hs : startsWith f.name base = true
      · simp only [hf, hs, Bool.and_self, if_true]
        split
        · rfl
        · exact ih _
      · simp only [hf, hs, Bool.and_false, if_false]
        exact ih _
    · rw [if_neg hf]
      have hr : exhaustiveLoop base (f :: fs) st = exhaustiveLoop base fs st := by
        conv_lhs => rw [exhaustiveLoop]
        rw [if_neg (by simp [hf])]
      rw [hr]
      exact ih _

/-- Claim C7, counterexample: with qualifier 2.0, primary recipe base.bb
lacking a revision, and a sibling base.inc that carries an extractable
revision (a recipe-extension file in the same directory whose name
starts with the base name), the exhaustive fallback still leaves the
revision unresolved, because it enumerates only dot-bb files; had the
dot-inc file been processed, the guarded extraction would have resolved
the revision, as the last conjunct shows. -/
theorem c7_counterexample :
    (extractSrcInfo (lit "base.bb")
      (lit "SRC_URI = \"git://github.com/a/b.git\"\nSRCBRANCH = \"main\"")
      [ ⟨ lit "base.bb",
          lit "SRC_URI = \"git://github.com/a/b.git\"\nSRCBRANCH = \"main\"" ⟩,
        ⟨ lit "base.inc", lit "SRCREV = \"deadbeef\"" ⟩ ]
      (some (lit "2.0"))).rev = none ∧
    endsWith (lit "base.inc") (lit ".inc") = true ∧
    startsWith (lit "base.inc") (baseNameOf (lit "base.bb")) = true ∧
    rbPassExhaustive (lit "SRCREV = \"deadbeef\"") (none, some (lit "main")) =
      (some (lit "deadbeef"), some (lit "main")) :=
  ⟨rfl, rfl, rfl, rfl⟩

/-- Claim C7 (amended): the exhaustive fallback enumerates only the
dot-bb files of the recipe's directory whose names start with the base
name, never dot-inc files (removing every non-dot-bb file from the
listing does not change its result); against each enumerated file it
repeats the guarded revision/branch extraction; and it stops as soon as
both fields are resolved (a state with both fields truthy is final). -/
theorem c7_exhaustive_scope :
    (∀ (base : List Char) (dir : List FSFile)
      (st : Option (List Char) × Option (List Char)),
      exhaustiveLoop base
        (dir.filter (fun f => endsWith f.name (lit ".bb"))) st =
      exhaustiveLoop base dir st) ∧
    (∀ (base : List Char) (dir : List FSFile)
      (st : Option (List Char) × Option (List Char)),
      (truthy st.1 && truthy st.2) = true →
      exhaustiveLoop base dir st = st) :=
  ⟨exhaustiveLoop_bb_only, exhaustiveLoop_frozen⟩

theorem c7_exhaustive_scope_witness :
    exhaustiveLoop (lit "base")
      [ ⟨ lit "base.bb", lit "SRCREV = \"other\"" ⟩ ]
      (some (lit "deadbeef"), some (lit "main")) =
      (some (lit "deadbeef"), some (lit "main")) :=
  c7_exhaustive_scope.2 (lit "base")
    [ ⟨ lit "base.bb", lit "SRCREV = \"other\"" ⟩ ]
    (some (lit "deadbeef"), some (lit "main")) (by decide)

theorem takeLenSubSuffix (a b : List Char) :
    (a ++ b).take ((a ++ b).length - b.length) = a := by
  rw [List.length_append, Nat.add_sub_cancel]
  exact List.take_left a b

theorem normUri_canonical_github (x : List Char) :
    normUri ((lit "github.com/" ++ x) ++ lit ".git") =
      (lit "git@github.com:" ++ x) ++ lit ".git" := by
  have e0 : endsWith ((lit "github.com/" ++ x) ++ lit ".git")
      (lit ".git") = true := by
    unfold endsWith
    rw [List.reverse_append]
    rfl
  have e1 : ((lit "github.com/" ++ x) ++ lit ".git").take
      (((lit "github.com/" ++ x) ++ lit ".git").length - 4) =
      lit "github.com/" ++ x := by
    have h := takeLenSubSuffix (lit "github.com/" ++ x) (lit ".git")
    rw [show (lit ".git").length = 4 from rfl] at h
    exact h
  simp only [normUri, e0, if_true, e1]
  rfl

theorem normUri_ssh_duplicates_host (x : List Char)
    (hx : containsSub (lit "github.com:" ++ x) (lit "github.com/") = false) :
    normUri ((lit "github.com:" ++ x) ++ lit ".git") =
      (lit "git@github.com:github.com:" ++ x) ++ lit ".git" := by
  have e0 : endsWith ((lit "github.com:" ++ x) ++ lit ".git")
      (lit ".git") = true := by
    unfold endsWith
    rw [List.reverse_append]
    rfl
  have e1 : ((lit "github.com:" ++ x) ++ lit ".git").take
      (((lit "github.com:" ++ x) ++ lit ".git").length - 4) =
      lit "github.com:" ++ x := by
    have h := takeLenSubSuffix (lit "github.com:" ++ x) (lit ".git")
    rw [show (lit ".git").length = 4 from rfl] at h
    exact h
  simp only [normUri, e0, if_true, e1, hx]
  rfl

/-- Claim C3, counterexample: an SSH-style transport line whose candidate
references github.com is not rewritten into the canonical form
git-at-github.com:owner/repo.git: the captured candidate keeps the host,
and the rewrite prepends the host again, yielding a duplicated-host URI
different from the canonical one the claim requires for every
transport. -/
theorem c3_counterexample :
    (sameFilePass
      (lit "SRC_URI = \"git@github.com:acme/foo-pkg.git;branch=main\"\nSRCREV = \"abcdef1234567890\"")).uri =
      some (lit "git@github.com:github.com:acme/foo-pkg.git") ∧
    ¬ (lit "git@github.com:github.com:acme/foo-pkg.git" =
       lit "git@github.com:acme/foo-pkg.git") :=
  ⟨rfl, by decide⟩

/-- Claim C3 (amended): the git-transport example of the claim holds
verbatim (URI rewritten to the canonical git-at form, revision kept),
and in general any candidate whose dot-git-stripped form starts with the
slash-qualified github host is rewritten canonically; but an SSH-style
candidate of the form github.com:owner/repo (no slash-qualified host
occurrence) falls to the default rewrite branch, which prepends the host
again and produces git-at-github.com:github.com:owner/repo.git. -/
theorem c3_normalization :
    (sameFilePass
      (lit "SRC_URI = \"git://github.com/acme/foo-pkg.git;branch=$\x7bSRCBRANCH\x7d\"\nSRCREV = \"abcdef1234567890\"")) =
      ⟨some (lit "git@github.com:acme/foo-pkg.git"),
       some (lit "abcdef1234567890"), none⟩ ∧
    (∀ x : List Char,
      normUri ((lit "github.com/" ++ x) ++ lit ".git") =
        (lit "git@github.com:" ++ x) ++ lit ".git") ∧
    (∀ x : List Char,
      containsSub (lit "github.com:" ++ x) (lit "github.com/") = false →
      normUri ((lit "github.com:" ++ x) ++ lit ".git") =
        (lit "git@github.com:github.com:" ++ x) ++ lit ".git") :=
  ⟨rfl, normUri_canonical_github, normUri_ssh_duplicates_host⟩

theorem c3_normalization_witness :
    normUri ((lit "github.com:" ++ lit "acme/foo-pkg") ++ lit ".git") =
      (lit "git@github.com:github.com:" ++ lit "acme/foo-pkg") ++ lit ".git" :=
  c3_normalization.2.2 (lit "acme/foo-pkg") (by decide)
